import Mathlib

/-!
Shallow embedding of the ranking and cart-aggregation core of the
Super-Cart-with-API repository.

The embedded code:
* `getTopProducts` (src/backend/controllers/ProductController.js, lines 131-183):
  the `switch (criteria)` ranking dispatch with its JS `sort`/`slice` branches
  and the storage-backed branches.
* `getSupermarketTotals`, `addToCart`, `removeFromCart`, `updateQuantity`,
  `clearCart`, `loadCart`, `saveCart` (src/frontend/src/api/cartAPI.js).
* the saved-cart POST route guard (src/backend/routes/CartRoutes.js, lines 110-130)
  and the Mongoose cart item schema bound `quantity: {min: 1}` (src/unnamed/part_001).

Numbers: JS prices and quantities are modelled as `ℚ` and `Int`.  The sentinel
values produced by `Math.min(...[])` / `Math.max(...[])` on an empty price map
(`+Infinity` / `-Infinity`) are modelled by `⊤ : WithTop ℚ` and, for the price
spread, `⊥ : WithBot ℚ`; a comparator returning `NaN` (infinity minus infinity,
which ECMAScript's SortCompare treats as `+0`, i.e. a tie) corresponds exactly
to comparing two `⊤`s (resp. two `⊥`s), which are equal.  JS `Array.prototype.sort`
is required by ES2019 to be stable, so it is modelled as a stable sort
(`List.insertionSort`) by the preorder `comparator a b ≤ 0`.
-/

namespace SuperCart

open List

/-- A product document (ProductSchema, src/unnamed/part_001): numeric `id`,
`name`, `category`, the `prices` map from supermarket name to price (modelled
as an association list in JS object insertion order), `popularity` and
`rating`. -/
structure Product where
  id : Nat
  name : String
  category : String
  prices : List (String × ℚ)
  popularity : ℚ
  rating : ℚ
deriving DecidableEq

/-- `Object.values(p.prices.toObject())`: the price values in key insertion
order. -/
def priceValues (p : Product) : List ℚ :=
  p.prices.map Prod.snd

/-- The sort key of the `cheapest` branch: `Math.min(...Object.values(prices))`,
which is `+Infinity` (here `⊤`) when the price map is empty. -/
def cheapKey (p : Product) : WithTop ℚ :=
  match (priceValues p).min? with
  | some m => (m : WithTop ℚ)
  | none => ⊤

/-- The sort key of the `highest different` branch:
`Math.max(...prices) - Math.min(...prices)`, which is `-Infinity` (here `⊥`)
when the price map is empty. -/
def spreadKey (p : Product) : WithBot ℚ :=
  match (priceValues p).max?, (priceValues p).min? with
  | some mx, some mn => ((mx - mn : ℚ) : WithBot ℚ)
  | _, _ => ⊥

/-- The preorder induced by the `cheapest` comparator
`minPriceA - minPriceB` (a before b iff the comparator is ≤ 0). -/
def cheapestRel (a b : Product) : Prop := cheapKey a ≤ cheapKey b

/-- The preorder induced by the `highest different` comparator
`diffB - diffA`: descending by spread. -/
def spreadRel (a b : Product) : Prop := spreadKey b ≤ spreadKey a

/-- Modelled from the spec: the storage layer's `.sort({popularity: -1})`
(descending by `popularity`; the query itself runs in MongoDB, outside this
repository's files). -/
def popularityRel (a b : Product) : Prop := b.popularity ≤ a.popularity

/-- Modelled from the spec: the storage layer's `.sort({rating: -1})`
(descending by `rating`). -/
def ratingRel (a b : Product) : Prop := b.rating ≤ a.rating

/-- Modelled from the spec: the storage layer's `.sort("name")` (ascending,
lexicographic). -/
def nameRel (a b : Product) : Prop := a.name ≤ b.name

instance : DecidableRel cheapestRel :=
  fun a b => inferInstanceAs (Decidable (cheapKey a ≤ cheapKey b))

instance : DecidableRel spreadRel :=
  fun a b => inferInstanceAs (Decidable (spreadKey b ≤ spreadKey a))

instance : DecidableRel popularityRel :=
  fun a b => inferInstanceAs (Decidable (b.popularity ≤ a.popularity))

instance : DecidableRel ratingRel :=
  fun a b => inferInstanceAs (Decidable (b.rating ≤ a.rating))

instance : DecidableRel nameRel :=
  fun a b => inferInstanceAs (Decidable (a.name ≤ b.name))

/-- JS `products.sort(cmp)`: ES2019 requires `Array.prototype.sort` to be
stable, and for the consistent comparators of `getTopProducts` a stable sort of
the array is exactly the stable insertion sort by the preorder
`cmp a b ≤ 0`. -/
def jsSort (r : Product → Product → Prop) [DecidableRel r] (l : List Product) : List Product :=
  List.insertionSort r l

/-- Modelled from the spec: the storage layer's sorted query for the
`most selected` / `highest rated` / default branches, which the spec requires
to break ties by stable input order ("the engine must not reorder equal-key
elements"). -/
def dbSort (r : Product → Product → Prop) [DecidableRel r] (l : List Product) : List Product :=
  List.insertionSort r l

/-- The number of elements kept by JS `arr.slice(0, limit)` on an array of
length `n`: a negative end index counts from the end of the array. -/
def sliceLen (n : Nat) (limit : Int) : Nat :=
  if limit < 0 then ((n : Int) + limit).toNat else limit.toNat

/-- JS `products.slice(0, limit)` (the truncation of the `cheapest` and
`highest different` branches). -/
def jsSlice (l : List Product) (limit : Int) : List Product :=
  l.take (sliceLen l.length limit)

/-- Modelled from the spec: the storage layer's `.limit(limit)`; the spec's
edge-case policy is "`limit` ≤ 0 yields an empty result, not an error". -/
def dbLimit (l : List Product) (limit : Int) : List Product :=
  l.take limit.toNat

/-- The `switch (criteria)` dispatch of `getTopProducts`
(ProductController.js, lines 140-176): the recognized criterion strings are
matched case-sensitively; anything else falls to the default (sort by name)
branch. -/
def rank (products : List Product) (criteria : String) (limit : Int) : List Product :=
  if criteria = "cheapest" then jsSlice (jsSort cheapestRel products) limit
  else if criteria = "highest different" then jsSlice (jsSort spreadRel products) limit
  else if criteria = "most selected" then dbLimit (dbSort popularityRel products) limit
  else if criteria = "highest rated" then dbLimit (dbSort ratingRel products) limit
  else dbLimit (dbSort nameRel products) limit

/-- The request-parameter handling of `getTopProducts` (ProductController.js,
lines 133-134) followed by the dispatch: `req.query.criteria || "cheapest"`
maps an absent or empty (falsy) criterion to `"cheapest"`, and
`parseInt(req.query.limit) || 10` maps an absent/non-numeric (`NaN`) or zero
limit to `10`. -/
def getTopProducts (products : List Product) (criteriaParam : Option String)
    (limitParam : Option Int) : List Product :=
  let criteria := match criteriaParam with
    | none => "cheapest"
    | some c => if c = "" then "cheapest" else c
  let limit : Int := match limitParam with
    | none => 10
    | some l => if l = 0 then 10 else l
  rank products criteria limit

/-- A cart line item (CartSchema item, src/unnamed/part_001; built in the
frontend by spreading a product and a quantity): product `id`, `name`,
`quantity` and the snapshot `prices` map. -/
structure CartItem where
  id : Nat
  name : String
  quantity : Int
  prices : List (String × ℚ)
deriving DecidableEq

/-- The cart item built by `{ ...product, quantity }` in `addToCart`
(cartAPI.js, line 249), restricted to the fields the model keeps. -/
def itemOfProduct (product : Product) (quantity : Int) : CartItem :=
  { id := product.id, name := product.name, quantity := quantity,
    prices := product.prices }

/-- `addToCart` (cartAPI.js, lines 241-251): `findIndex` of the first item
whose `id` equals the product's; if found, the copied cart has that item's
`quantity` incremented by the given amount; otherwise `{...product, quantity}`
is appended. -/
def addToCart (cart : List CartItem) (product : Product) (quantity : Int) : List CartItem :=
  match cart with
  | [] => [itemOfProduct product quantity]
  | item :: rest =>
    if item.id = product.id then
      { item with quantity := item.quantity + quantity } :: rest
    else
      item :: addToCart rest product quantity

/-- `removeFromCart` (cartAPI.js, lines 258-260):
`cart.filter((item) => item.id !== productId)`. -/
def removeFromCart (cart : List CartItem) (productId : Nat) : List CartItem :=
  cart.filter (fun item => item.id ≠ productId)

/-- `updateQuantity` (cartAPI.js, lines 268-274): a new quantity below 1 is
rejected (`if (newQuantity < 1) return;` leaves the cart untouched); otherwise
every item with the given id gets the new quantity. -/
def updateQuantity (cart : List CartItem) (productId : Nat) (newQuantity : Int) : List CartItem :=
  if newQuantity < 1 then cart
  else cart.map (fun item =>
    if item.id = productId then { item with quantity := newQuantity } else item)

/-- `clearCart` (cartAPI.js, lines 279-281): `setCart([])`. -/
def clearCart : List CartItem := []

/-- `loadCart` (cartAPI.js, lines 288-290): `setCart([...items])`. -/
def loadCart (items : List CartItem) : List CartItem := items

/-- The Mongoose cart item validation (CartSchema, src/unnamed/part_001):
`quantity: { type: Number, required: true, min: 1 }`. -/
def cartItemValid (item : CartItem) : Bool :=
  decide (1 ≤ item.quantity)

/-- A stored cart is schema-valid when every item passes `cartItemValid`. -/
def cartSchemaValid (items : List CartItem) : Bool :=
  items.all cartItemValid

/-- One `totals[market] += price * item.quantity` step of
`getSupermarketTotals` (cartAPI.js, lines 376-379), together with the
`if (!totals[market]) totals[market] = 0;` entry creation: an existing entry is
increased in place, a missing one is appended (JS object insertion order). -/
def addTotal (totals : List (String × ℚ)) (market : String) (amount : ℚ) : List (String × ℚ) :=
  if totals.any (fun kv => kv.1 = market) then
    totals.map (fun kv => if kv.1 = market then (kv.1, kv.2 + amount) else kv)
  else
    totals ++ [(market, amount)]

/-- `getSupermarketTotals` (cartAPI.js, lines 373-382): starting from the empty
mapping, every `(market, price)` entry of every item adds
`price * item.quantity` to that market's running total. -/
def getSupermarketTotals (cart : List CartItem) : List (String × ℚ) :=
  cart.foldl (fun totals item =>
    item.prices.foldl (fun t kv => addTotal t kv.1 (kv.2 * (item.quantity : ℚ))) totals) []

/-- What the client-side `saveCart` guard decides (cartAPI.js, lines 323-345):
whether the save was handed to the server (`saveCartToDB` reached), the value
returned to the caller when the guard rejects, and the recorded error. -/
structure SaveAttempt where
  serverCalled : Bool
  rejectedReturn : Option (List CartItem)
  errorMsg : Option String
deriving DecidableEq

/-- `saveCart` (cartAPI.js, lines 323-345): an empty local cart records
"Cannot save an empty cart" and returns `null` without calling the server;
otherwise the cart is posted via `saveCartToDB` (the HTTP call itself is
external I/O and out of this model). -/
def saveCart (cart : List CartItem) : SaveAttempt :=
  if cart.length = 0 then
    { serverCalled := false, rejectedReturn := none,
      errorMsg := some "Cannot save an empty cart" }
  else
    { serverCalled := true, rejectedReturn := none, errorMsg := none }

/-- The `items` field of a POST /api/cart request body as the route guard sees
it: absent (or another falsy value), present but not an array, or an array. -/
inductive ItemsField where
  | missing : ItemsField
  | notArray : ItemsField
  | arr : List CartItem → ItemsField
deriving DecidableEq

/-- The response of `router.post("/")` in CartRoutes.js (lines 110-130): the
guard `!items || !Array.isArray(items) || items.length === 0` answers 400 and
persists nothing; otherwise a cart with the given items (and a defaulted name)
is persisted with status 201. -/
inductive PostCartResult where
  | badRequest : PostCartResult
  | created : List CartItem → PostCartResult
deriving DecidableEq

/-- `router.post("/")` (CartRoutes.js, lines 110-130), up to the persistence
call: the created cart carries exactly the request's items. -/
def postCart (items : ItemsField) : PostCartResult :=
  match items with
  | .missing => .badRequest
  | .notArray => .badRequest
  | .arr l => if l.length = 0 then .badRequest else .created l

/-! ## Order-theoretic facts about the five comparator relations -/

instance : IsTrans Product cheapestRel := ⟨fun _ _ _ h1 h2 => le_trans h1 h2⟩

instance : IsTotal Product cheapestRel := ⟨fun a b => le_total (cheapKey a) (cheapKey b)⟩

instance : IsTrans Product spreadRel := ⟨fun _ _ _ h1 h2 => le_trans h2 h1⟩

instance : IsTotal Product spreadRel := ⟨fun a b => le_total (spreadKey b) (spreadKey a)⟩

instance : IsTrans Product popularityRel := ⟨fun _ _ _ h1 h2 => le_trans h2 h1⟩

instance : IsTotal Product popularityRel := ⟨fun a b => le_total b.popularity a.popularity⟩

instance : IsTrans Product ratingRel := ⟨fun _ _ _ h1 h2 => le_trans h2 h1⟩

instance : IsTotal Product ratingRel := ⟨fun a b => le_total b.rating a.rating⟩

instance : IsTrans Product nameRel := ⟨fun _ _ _ h1 h2 => le_trans h1 h2⟩

instance : IsTotal Product nameRel := ⟨fun a b => le_total a.name b.name⟩

/-- The comparison relation each branch of the `switch (criteria)` sorts by:
two products' ranking keys compare equal for a criterion exactly when
`rankRel criteria` holds both ways between them. -/
def rankRel (criteria : String) : Product → Product → Prop :=
  if criteria = "cheapest" then cheapestRel
  else if criteria = "highest different" then spreadRel
  else if criteria = "most selected" then popularityRel
  else if criteria = "highest rated" then ratingRel
  else nameRel

instance instDecidableRankRel (criteria : String) : DecidableRel (rankRel criteria) := by
  unfold rankRel
  split
  · exact inferInstance
  split
  · exact inferInstance
  split
  · exact inferInstance
  split
  · exact inferInstance
  exact inferInstance

instance instTransRankRel (criteria : String) : IsTrans Product (rankRel criteria) := by
  unfold rankRel
  split
  · exact inferInstance
  split
  · exact inferInstance
  split
  · exact inferInstance
  split
  · exact inferInstance
  exact inferInstance

instance instTotalRankRel (criteria : String) : IsTotal Product (rankRel criteria) := by
  unfold rankRel
  split
  · exact inferInstance
  split
  · exact inferInstance
  split
  · exact inferInstance
  split
  · exact inferInstance
  exact inferInstance

/-! ## Helper lemmas about the sorting pipeline -/

theorem take_isPre {α : Type} (n : Nat) (l : List α) : l.take n <+: l :=
  ⟨l.drop n, l.take_append_drop n⟩

/-- Every branch of `rank` is the stable sort by `rankRel criteria` followed by
a `take` of the branch's cut length. -/
theorem rank_eq_take (products : List Product) (criteria : String) (limit : Int) :
    rank products criteria limit =
      (List.insertionSort (rankRel criteria) products).take
        (if criteria = "cheapest" ∨ criteria = "highest different" then
          sliceLen products.length limit
         else limit.toNat) := by
  unfold rank rankRel jsSlice jsSort dbLimit dbSort
  split_ifs with h1 h2 h3 h4 h5 h6 h7 <;>
    simp_all [List.length_insertionSort]

/-- A stable sort does not move elements whose keys all compare equal: the
subsequence of elements satisfying `q` is untouched when any two `q`-elements
are related both ways. -/
theorem filter_insertionSort_tied {α : Type} {r : α → α → Prop} [DecidableRel r]
    (q : α → Bool) (l : List α)
    (hq : ∀ a b : α, q a = true → q b = true → r a b) :
    (List.insertionSort r l).filter q = l.filter q := by
  have hpw : (l.filter q).Pairwise r := by
    apply List.pairwise_of_forall_mem_list
    intro a ha b hb
    exact hq a b (List.of_mem_filter ha) (List.of_mem_filter hb)
  have hsub : l.filter q <+ List.insertionSort r l :=
    List.sublist_insertionSort hpw (List.filter_sublist l)
  have hperm : (List.insertionSort r l).filter q ~ l.filter q :=
    (List.perm_insertionSort r l).filter q
  have hsub2 : l.filter q <+ (List.insertionSort r l).filter q := by
    have h := hsub.filter q
    rwa [List.filter_eq_self.mpr (fun a ha => List.of_mem_filter ha)] at h
  exact (hsub2.eq_of_length hperm.length_eq.symm).symm

/-- When the limit is at least the number of products, every branch returns a
permutation of the whole input: no product is dropped. -/
theorem rank_perm_of_le (products : List Product) (criteria : String) (limit : Int)
    (h : (products.length : Int) ≤ limit) :
    rank products criteria limit ~ products := by
  rw [rank_eq_take]
  have h0 : (0 : Int) ≤ limit := le_trans (by positivity) h
  have hlen : products.length ≤ limit.toNat := by omega
  have hcut : products.length ≤
      (if criteria = "cheapest" ∨ criteria = "highest different" then
        sliceLen products.length limit
       else limit.toNat) := by
    unfold sliceLen
    split_ifs with h1 h2 <;> omega
  rw [List.take_of_length_le (by rw [List.length_insertionSort]; exact hcut)]
  exact List.perm_insertionSort _ _

/-- Every branch's output is sorted by that branch's comparison relation. -/
theorem rank_pairwise (products : List Product) (criteria : String) (limit : Int) :
    (rank products criteria limit).Pairwise (rankRel criteria) := by
  rw [rank_eq_take]
  exact (List.sorted_insertionSort (rankRel criteria) products).sublist (List.take_sublist _ _)

/-! ## Concrete products used by the spec's worked examples -/

/-- Product `A{prices:{x:10,y:12}}` of the spec's ordering example. -/
def specA : Product := ⟨1, "A", "cat", [("x", 10), ("y", 12)], 0, 0⟩

/-- Product `B{prices:{x:5,y:5}}` of the spec's ordering example. -/
def specB : Product := ⟨2, "B", "cat", [("x", 5), ("y", 5)], 0, 0⟩

/-- Product `C{prices:{}}` of the spec's ordering example. -/
def specC : Product := ⟨3, "C", "cat", [], 0, 0⟩

/-- Product `A{prices:{x:10,y:20}}` (spread 10) of the spec's spread example. -/
def specD : Product := ⟨4, "A", "cat", [("x", 10), ("y", 20)], 0, 0⟩

/-- Product `B{prices:{x:5,y:5}}` (spread 0) of the spec's spread example. -/
def specE : Product := ⟨5, "B", "cat", [("x", 5), ("y", 5)], 0, 0⟩

/-! ## C1 -/

/-- C1 (counterexample): on the spec's own example `[A, B, C]` with `C`'s price
map empty, the `cheapest` ranking with limit 10 does not return `[B, A]`: `C`
is not excluded (it is carried at the end with sentinel key `+∞`). -/
theorem rank_emptyPrices_excluded_cex :
    rank [specA, specB, specC] "cheapest" 10 ≠ [specB, specA] := by decide

/-- C1 (amended): products with an empty `prices` map are not excluded from
`cheapest` / `highest different`; the comparison does not crash, and the
sentinel keys (`⊤` for the minimum, `⊥` for the spread) sort such products
after every product with a non-empty map, leaving the ordering of the others
intact: both outputs are sorted by their branch's key order, nothing is dropped
when the limit covers the collection, and the spec's example returns
`[B, A, C]`. -/
theorem rank_emptyPrices_sentinel (products : List Product) (limit : Int) :
    (rank products "cheapest" limit).Pairwise cheapestRel
    ∧ (rank products "highest different" limit).Pairwise spreadRel
    ∧ ((products.length : Int) ≤ limit → rank products "cheapest" limit ~ products)
    ∧ ((products.length : Int) ≤ limit → rank products "highest different" limit ~ products)
    ∧ rank [specA, specB, specC] "cheapest" 10 = [specB, specA, specC] := by
  refine ⟨?_, ?_, ?_, ?_, ?_⟩
  · exact rank_pairwise products "cheapest" limit
  · exact rank_pairwise products "highest different" limit
  · exact fun h => rank_perm_of_le products _ limit h
  · exact fun h => rank_perm_of_le products _ limit h
  · decide

/-! ## C2 -/

/-- C2 (counterexample): a negative limit does not yield an empty result on the
JS-sorted branches: `slice(0, -1)` drops only the last element, so ranking the
spec's three example products by `cheapest` with limit `-1` returns two
products. -/
theorem rank_negative_limit_cex :
    rank [specA, specB, specC] "cheapest" (-1) = [specB, specA]
    ∧ (rank [specA, specB, specC] "cheapest" (-1)).length = 2 := by
  exact ⟨by decide, by decide⟩

/-- C2 (amended): for every criterion and `limit ≥ 0` the output length is
`min(limit, number of products)` (no product is excluded); `limit = 0` gives an
empty result, but a negative limit reaches `slice(0, limit)` in the
`cheapest` / `highest different` branches and keeps all but the last `-limit`
products, while the storage-backed branches return nothing. -/
theorem rank_length_characterization (products : List Product) (criteria : String) (limit : Int) :
    (rank products criteria limit).length =
      if 0 ≤ limit then min limit.toNat products.length
      else if criteria = "cheapest" ∨ criteria = "highest different" then
        ((products.length : Int) + limit).toNat
      else 0 := by
  rw [rank_eq_take, List.length_take, List.length_insertionSort]
  unfold sliceLen
  split_ifs <;> omega

/-! ## C5 -/

/-- C5: when every product has a non-empty `prices` map, the `cheapest`
ranking is ascending in the minimum price (the comparator key), and with a
limit covering the collection it is a permutation of the input. -/
theorem rank_cheapest_sorted (products : List Product) (limit : Int)
    (h : ∀ p ∈ products, p.prices ≠ []) :
    (rank products "cheapest" limit).Pairwise cheapestRel
    ∧ ((products.length : Int) ≤ limit → rank products "cheapest" limit ~ products) :=
  ⟨rank_pairwise products "cheapest" limit,
   fun hlim => rank_perm_of_le products _ limit hlim⟩

/-- C5 (witness): the theorem applied to the spec's example pair `A`, `B`. -/
theorem rank_cheapest_sorted_witness :
    (∀ p ∈ [specA, specB], p.prices ≠ [])
    ∧ ((rank [specA, specB] "cheapest" 10).Pairwise cheapestRel
       ∧ (([specA, specB].length : Int) ≤ 10 → rank [specA, specB] "cheapest" 10 ~ [specA, specB])) :=
  ⟨by decide, rank_cheapest_sorted [specA, specB] 10 (by decide)⟩

/-! ## C6 -/

/-- `spreadRel specD specE`: the spread of `A{x:10,y:20}` is 10 and the spread
of `B{x:5,y:5}` is 0, so `A` sorts before `B` in `highest different`. -/
theorem spreadRel_specD_specE : spreadRel specD specE := by
  show spreadKey specE ≤ spreadKey specD
  have hD : spreadKey specD = ((10 : ℚ) : WithBot ℚ) := by
    norm_num [spreadKey, priceValues, specD, List.max?, List.min?]
  have hE : spreadKey specE = ((0 : ℚ) : WithBot ℚ) := by
    norm_num [spreadKey, priceValues, specE, List.max?, List.min?]
  rw [hD, hE]
  exact_mod_cast (by norm_num : (0 : ℚ) ≤ 10)

/-- C6: when every product has a non-empty `prices` map, the
`highest different` ranking is descending in the spread (max minus min of the
price map), it loses nothing when the limit covers the collection, and the
spec's example `rank([A,B], limit 10)` returns `[A, B]`. -/
theorem rank_spread_sorted (products : List Product) (limit : Int)
    (h : ∀ p ∈ products, p.prices ≠ []) :
    (rank products "highest different" limit).Pairwise spreadRel
    ∧ ((products.length : Int) ≤ limit → rank products "highest different" limit ~ products)
    ∧ rank [specD, specE] "highest different" 10 = [specD, specE] := by
  refine ⟨rank_pairwise products "highest different" limit,
    fun hlim => rank_perm_of_le products _ limit hlim, ?_⟩
  simp [rank, jsSort, jsSlice, sliceLen, List.insertionSort, List.orderedInsert,
    spreadRel_specD_specE]

/-- C6 (witness): the theorem applied to the spec's spread example `A`, `B`. -/
theorem rank_spread_sorted_witness :
    (∀ p ∈ [specD, specE], p.prices ≠ [])
    ∧ ((rank [specD, specE] "highest different" 10).Pairwise spreadRel
       ∧ (([specD, specE].length : Int) ≤ 10 → rank [specD, specE] "highest different" 10 ~ [specD, specE])
       ∧ rank [specD, specE] "highest different" 10 = [specD, specE]) :=
  ⟨by decide, rank_spread_sorted [specD, specE] 10 (by decide)⟩

/-! ## C7 -/

/-- C7: ranking is stable for every criterion: the subsequence of output
products whose ranking keys all compare equal (related both ways by the
branch's comparison relation) is a prefix of the same subsequence of the
input, i.e. equal-key products keep their relative input order and only lose a
tail to the limit cut. -/
theorem rank_stable_ties (products : List Product) (criteria : String) (limit : Int)
    (q : Product → Bool)
    (hq : ∀ a b : Product, q a = true → q b = true → rankRel criteria a b) :
    (rank products criteria limit).filter q <+: products.filter q := by
  rw [rank_eq_take]
  have h1 := (take_isPre
    (if criteria = "cheapest" ∨ criteria = "highest different" then
      sliceLen products.length limit
     else limit.toNat)
    (List.insertionSort (rankRel criteria) products)).filter q
  rwa [filter_insertionSort_tied q products hq] at h1

/-- C7 (witness): the theorem applied to the spec's example collection for the
`cheapest` criterion, with the tied class of products of minimum price 5. -/
theorem rank_stable_ties_witness :
    (rank [specA, specB, specC] "cheapest" 10).filter
        (fun p => decide (cheapKey p = ((5 : ℚ) : WithTop ℚ)))
      <+: [specA, specB, specC].filter
        (fun p => decide (cheapKey p = ((5 : ℚ) : WithTop ℚ))) := by
  refine rank_stable_ties [specA, specB, specC] "cheapest" 10 _ ?_
  intro a b ha hb
  have ha2 : cheapKey a = ((5 : ℚ) : WithTop ℚ) := of_decide_eq_true ha
  have hb2 : cheapKey b = ((5 : ℚ) : WithTop ℚ) := of_decide_eq_true hb
  show cheapKey a ≤ cheapKey b
  rw [ha2, hb2]

/-! ## C4 -/

/-- A product named `"x"` with single price 5, for the empty-criterion
counterexample (equal names keep the default branch's name sort trivial). -/
def exF : Product := ⟨6, "x", "cat", [("s", 5)], 0, 0⟩

/-- A product named `"x"` with single price 1. -/
def exG : Product := ⟨7, "x", "cat", [("s", 1)], 0, 0⟩

/-- C4 (counterexample): the empty criterion string does not produce the
default name-ascending ordering: `req.query.criteria || "cheapest"` treats `""`
as falsy, so `getTopProducts` ranks by `cheapest` instead, and the two results
differ on a collection whose cheapest order is not its name order. -/
theorem rank_empty_criterion_cex :
    getTopProducts [exF, exG] (some "") (some 10)
      ≠ getTopProducts [exF, exG] (some "not_a_real_criterion") (some 10) := by
  have hxx : nameRel exF exG := le_refl _
  have h1 : getTopProducts [exF, exG] (some "") (some 10) = [exG, exF] := by decide
  have h2 : getTopProducts [exF, exG] (some "not_a_real_criterion") (some 10) = [exF, exG] := by
    simp [getTopProducts, rank, dbSort, dbLimit, List.insertionSort, List.orderedInsert, hxx]
  rw [h1, h2]
  decide

/-- C4 (amended): every non-empty criterion string other than the four
recognized ones yields the same output as `"not_a_real_criterion"`, namely the
default name-ascending ordering, without signalling an error; the empty string,
however, is falsy and is defaulted by the handler to `"cheapest"`, so
`rank(products, "", 10)` equals the `cheapest` ranking, not the name
ordering. -/
theorem rank_unrecognized_default (products : List Product) (c : String) (lp : Option Int)
    (h1 : c ≠ "") (h2 : c ≠ "cheapest") (h3 : c ≠ "highest different")
    (h4 : c ≠ "most selected") (h5 : c ≠ "highest rated") :
    getTopProducts products (some c) lp = getTopProducts products (some "not_a_real_criterion") lp
    ∧ (getTopProducts products (some c) lp).Pairwise nameRel
    ∧ getTopProducts products (some "") lp = getTopProducts products (some "cheapest") lp := by
  have hr : rankRel c = nameRel := by
    unfold rankRel
    simp [h2, h3, h4, h5]
  refine ⟨?_, ?_, ?_⟩
  · simp [getTopProducts, rank, h1, h2, h3, h4, h5]
  · have hp : Pairwise nameRel (rank products c (match lp with
        | none => 10
        | some l => if l = 0 then 10 else l)) := by
      rw [← hr]
      exact rank_pairwise products c _
    simpa [getTopProducts, h1] using hp
  · simp [getTopProducts]

/-- C4 (witness): the amended theorem applied to `"foo"` on the two-product
collection of the counterexample. -/
theorem rank_unrecognized_default_witness :
    getTopProducts [exF, exG] (some "foo") none
        = getTopProducts [exF, exG] (some "not_a_real_criterion") none
    ∧ (getTopProducts [exF, exG] (some "foo") none).Pairwise nameRel
    ∧ getTopProducts [exF, exG] (some "") none = getTopProducts [exF, exG] (some "cheapest") none :=
  rank_unrecognized_default [exF, exG] "foo" none (by decide) (by decide) (by decide)
    (by decide) (by decide)

/-! ## C3: per-supermarket totals -/

/-- Looking up `m` after the in-place update of key `m2` sees the increased
value exactly when `m = m2`. -/
theorem lookup_map_update (m2 : String) (a : ℚ) (m : String) :
    ∀ t : List (String × ℚ),
      List.lookup m (t.map (fun kv => if kv.1 = m2 then (kv.1, kv.2 + a) else kv)) =
        if m = m2 then (List.lookup m t).map (fun v => v + a) else List.lookup m t
  | [] => by simp
  | ⟨k, v⟩ :: rest => by
    have ih := lookup_map_update m2 a m rest
    by_cases h1 : k = m2
    · by_cases h2 : m = k
      · have hm2 : m = m2 := h2.trans h1
        simp [h1, List.lookup_cons, beq_iff_eq, h2, hm2]
      · have hm2 : m ≠ m2 := fun hc => h2 (hc.trans h1.symm)
        have hb : (m == k) = false := beq_eq_false_iff_ne.mpr h2
        simp only [List.map_cons, if_pos h1]
        simp [List.lookup_cons, hb, hm2, ih]
    · by_cases h2 : m = k
      · have hm2 : m ≠ m2 := fun hc => h1 (h2.symm.trans hc)
        have hb : (m == k) = true := beq_iff_eq.mpr h2
        simp only [List.map_cons, if_neg h1]
        simp [List.lookup_cons, hb, hm2, h1]
      · have hb : (m == k) = false := beq_eq_false_iff_ne.mpr h2
        simp only [List.map_cons, if_neg h1]
        simp [List.lookup_cons, hb, ih]

/-- A key absent from every entry of `t` looks up to `none`. -/
theorem lookup_eq_none_of_not_key (m : String) (t : List (String × ℚ))
    (h : t.any (fun kv => kv.1 = m) = false) :
    List.lookup m t = none := by
  rw [List.lookup_eq_none_iff]
  intro p hp
  simp only [List.any_eq_false, decide_eq_true_eq] at h
  simpa [bne_iff_ne] using fun he => h p hp (by simp [he])

/-- The `totals[market] += amount` step seen through `lookup`: key `m2`'s value
grows by `amount` (from 0 when the entry is created), other keys are
untouched. -/
theorem lookup_addTotal (t : List (String × ℚ)) (m m2 : String) (a : ℚ) :
    List.lookup m (addTotal t m2 a) =
      if m = m2 then some ((List.lookup m t).getD 0 + a) else List.lookup m t := by
  unfold addTotal
  split_ifs with hmem hm hm
  · subst hm
    rw [lookup_map_update, if_pos rfl]
    simp only [List.any_eq_true, decide_eq_true_eq] at hmem
    obtain ⟨kv, hkv, hk⟩ := hmem
    have hsome : (List.lookup m t).isSome := by
      rw [List.lookup_isSome_iff]
      exact ⟨kv, hkv, by simp [hk]⟩
    obtain ⟨v, hv⟩ := Option.isSome_iff_exists.mp hsome
    simp [hv]
  · rw [lookup_map_update, if_neg hm]
  · subst hm
    rw [List.lookup_append, lookup_eq_none_of_not_key m t (Bool.eq_false_iff.mpr hmem)]
    simp [List.lookup_cons]
  · rw [List.lookup_append]
    cases hl : List.lookup m t with
    | some v => simp
    | none =>
      have hb : (m == m2) = false := beq_eq_false_iff_ne.mpr hm
      simp [List.lookup_cons, hb, hl]

/-- Folding one item's price snapshot into the totals adds
`price * quantity` to the looked-up market when the snapshot lists it (its
keys being unique), and touches nothing else. -/
theorem lookup_pricesFold (qz : ℚ) (m : String) :
    ∀ (prices : List (String × ℚ)) (t : List (String × ℚ)),
      (prices.map Prod.fst).Nodup →
      List.lookup m (prices.foldl (fun t2 kv => addTotal t2 kv.1 (kv.2 * qz)) t) =
        if prices.any (fun kv => kv.1 = m) then
          some ((List.lookup m t).getD 0 + (List.lookup m prices).getD 0 * qz)
        else List.lookup m t
  | [], t, _ => by simp
  | ⟨k, v⟩ :: rest, t, hnd => by
    have hnd2 : (rest.map Prod.fst).Nodup := (List.nodup_cons.mp (by simpa using hnd)).2
    have hknotin : k ∉ rest.map Prod.fst := (List.nodup_cons.mp (by simpa using hnd)).1
    have ih := lookup_pricesFold qz m rest (addTotal t k (v * qz)) hnd2
    simp only [List.foldl_cons]
    rw [ih]
    by_cases hk : k = m
    · subst hk
      have hrest : rest.any (fun kv => kv.1 = k) = false := by
        simp only [List.any_eq_false, decide_eq_true_eq]
        intro kv hkv hkv1
        exact hknotin (hkv1 ▸ List.mem_map_of_mem Prod.fst hkv)
      rw [if_neg (by simp [hrest])]
      rw [lookup_addTotal, if_pos rfl]
      simp [List.any_cons]
    · have hmk : m ≠ k := fun h => hk h.symm
      have hb : (m == k) = false := beq_eq_false_iff_ne.mpr hmk
      rw [lookup_addTotal, if_neg hmk]
      have hcond : (decide (k = m) || rest.any fun kv => decide (kv.1 = m)) =
          (rest.any fun kv => decide (kv.1 = m)) := by
        simp [hk]
      simp only [List.any_cons, hcond, List.lookup_cons, hb]

/-- Items listing no entry for market `m` contribute nothing to its total. -/
theorem contribSum_zero (m : String) (rest : List CartItem)
    (h : rest.any (fun it => it.prices.any (fun kv => kv.1 = m)) = false) :
    (rest.map (fun it => (List.lookup m it.prices).getD 0 * (it.quantity : ℚ))).sum = 0 := by
  apply List.sum_eq_zero
  intro x hx
  obtain ⟨it, hit, rfl⟩ := List.mem_map.mp hx
  have hnone : it.prices.any (fun kv => kv.1 = m) = false := by
    by_cases hone : it.prices.any (fun kv => kv.1 = m) = true
    · exact absurd (List.any_eq_true.mpr ⟨it, hit, hone⟩) (Bool.eq_false_iff.mp h)
    · exact Bool.eq_false_iff.mpr hone
  rw [lookup_eq_none_of_not_key m _ hnone]
  simp

/-- Folding a list of items into the totals adds each item's
`price * quantity` contribution for the looked-up market. -/
theorem lookup_itemsFold (m : String) :
    ∀ (cart : List CartItem) (t : List (String × ℚ)),
      (∀ it ∈ cart, (it.prices.map Prod.fst).Nodup) →
      List.lookup m (cart.foldl (fun totals item =>
          item.prices.foldl
            (fun t2 kv => addTotal t2 kv.1 (kv.2 * (item.quantity : ℚ))) totals) t) =
        if cart.any (fun it => it.prices.any (fun kv => kv.1 = m)) then
          some ((List.lookup m t).getD 0 +
            (cart.map (fun it => (List.lookup m it.prices).getD 0 * (it.quantity : ℚ))).sum)
        else List.lookup m t
  | [], t, _ => by simp
  | it :: rest, t, h => by
    have hit : (it.prices.map Prod.fst).Nodup := h it (List.mem_cons_self it rest)
    have hrest : ∀ x ∈ rest, (x.prices.map Prod.fst).Nodup :=
      fun x hx => h x (List.mem_cons_of_mem it hx)
    have ih := lookup_itemsFold m rest
      (it.prices.foldl (fun t2 kv => addTotal t2 kv.1 (kv.2 * (it.quantity : ℚ))) t) hrest
    simp only [List.foldl_cons]
    rw [ih, lookup_pricesFold (it.quantity : ℚ) m it.prices t hit]
    by_cases h1 : it.prices.any (fun kv => kv.1 = m) = true
    · by_cases h2 : rest.any (fun x => x.prices.any (fun kv => kv.1 = m)) = true
      · rw [if_pos h2, if_pos h1, if_pos (by simp [List.any_cons, h1])]
        simp only [List.map_cons, List.sum_cons]
        simp [add_assoc]
      · rw [if_neg h2, if_pos h1, if_pos (by simp [List.any_cons, h1])]
        simp only [List.map_cons, List.sum_cons]
        rw [contribSum_zero m rest (Bool.eq_false_iff.mpr h2)]
        simp
    · by_cases h2 : rest.any (fun x => x.prices.any (fun kv => kv.1 = m)) = true
      · rw [if_pos h2, if_neg h1, if_pos (by simp [List.any_cons, h2])]
        simp only [List.map_cons, List.sum_cons]
        rw [lookup_eq_none_of_not_key m it.prices (Bool.eq_false_iff.mpr h1)]
        simp
      · rw [if_neg h2, if_neg h1,
          if_neg (by simp [List.any_cons, Bool.eq_false_iff.mpr h1, Bool.eq_false_iff.mpr h2])]

/-- Item `{prices:{x:10,y:8}, quantity:2}` of the spec's aggregation example. -/
def exI1 : CartItem := ⟨1, "i1", 2, [("x", 10), ("y", 8)]⟩

/-- Item `{prices:{x:5}, quantity:1}` of the spec's aggregation example. -/
def exI2 : CartItem := ⟨2, "i2", 1, [("x", 5)]⟩

/-- C3: every supermarket listed by at least one item is mapped to the sum of
`price × quantity` over the items listing it (entries are created at 0, and a
market missing from an item accumulates nothing from it), a market listed by no
item has no entry, the empty cart gives the empty mapping, and the spec's
worked example yields `{x: 25, y: 16}`. -/
theorem supermarketTotals_lookup (cart : List CartItem) (m : String)
    (h : ∀ it ∈ cart, (it.prices.map Prod.fst).Nodup) :
    (List.lookup m (getSupermarketTotals cart) =
      if cart.any (fun it => it.prices.any (fun kv => kv.1 = m)) then
        some ((cart.map (fun it => (List.lookup m it.prices).getD 0 * (it.quantity : ℚ))).sum)
      else none)
    ∧ getSupermarketTotals [] = []
    ∧ List.lookup "x" (getSupermarketTotals [exI1, exI2]) = some 25
    ∧ List.lookup "y" (getSupermarketTotals [exI1, exI2]) = some 16 := by
  refine ⟨?_, rfl, ?_, ?_⟩
  · have hfold := lookup_itemsFold m cart [] h
    unfold getSupermarketTotals
    rw [hfold]
    simp
  · have hxy : ("x" : String) ≠ "y" := by decide
    norm_num [getSupermarketTotals, addTotal, exI1, exI2, List.lookup_cons, hxy, hxy.symm]
  · have hxy : ("x" : String) ≠ "y" := by decide
    have hyx : (("y" : String) == "x") = false := by decide
    norm_num [getSupermarketTotals, addTotal, exI1, exI2, List.lookup_cons, hxy, hxy.symm, hyx]

/-- C3 (witness): the theorem applied to the spec's two example items at
market `"x"`. -/
theorem supermarketTotals_lookup_witness :
    (∀ it ∈ [exI1, exI2], (it.prices.map Prod.fst).Nodup)
    ∧ ((List.lookup "x" (getSupermarketTotals [exI1, exI2]) =
        if [exI1, exI2].any (fun it => it.prices.any (fun kv => kv.1 = "x")) then
          some (([exI1, exI2].map
            (fun it => (List.lookup "x" it.prices).getD 0 * (it.quantity : ℚ))).sum)
        else none)
      ∧ getSupermarketTotals [] = []
      ∧ List.lookup "x" (getSupermarketTotals [exI1, exI2]) = some 25
      ∧ List.lookup "y" (getSupermarketTotals [exI1, exI2]) = some 16) :=
  ⟨by decide, supermarketTotals_lookup [exI1, exI2] "x" (by decide)⟩

/-! ## C8: the quantity ≥ 1 invariant -/

/-- `addToCart` keeps every quantity at least 1 when the cart satisfied the
invariant and the requested quantity is itself at least 1. -/
theorem addToCart_quantity_ge (cart : List CartItem) (product : Product) (q : Int)
    (hc : ∀ it ∈ cart, 1 ≤ it.quantity) (hq : 1 ≤ q) :
    ∀ it ∈ addToCart cart product q, 1 ≤ it.quantity := by
  induction cart with
  | nil =>
    intro it hit
    simp only [addToCart, List.mem_singleton] at hit
    subst hit
    simpa [itemOfProduct] using hq
  | cons item rest ih =>
    intro it hit
    have hhead : 1 ≤ item.quantity := hc item (List.mem_cons_self item rest)
    have hrest : ∀ x ∈ rest, 1 ≤ x.quantity :=
      fun x hx => hc x (List.mem_cons_of_mem item hx)
    by_cases hid : item.id = product.id
    · simp only [addToCart, if_pos hid, List.mem_cons] at hit
      rcases hit with rfl | hit
      · simpa using by omega
      · exact hrest it hit
    · simp only [addToCart, if_neg hid, List.mem_cons] at hit
      rcases hit with rfl | hit
      · exact hhead
      · exact ih hrest it hit

/-- C8: quantities stay at least 1: `updateQuantity` rejects a new quantity
below 1 leaving the whole cart unchanged (not clamped), the stored-cart schema
demands quantity ≥ 1 of every item, and each cart-mutating operation
(`updateQuantity`, `removeFromCart`, `clearCart`, `addToCart` for an add
request of quantity ≥ 1, `loadCart` of a schema-valid cart) preserves the
invariant. -/
theorem cart_quantity_invariant (cart : List CartItem) (productId : Nat)
    (newQuantity : Int) (product : Product) (q : Int) (items : List CartItem) :
    (newQuantity < 1 → updateQuantity cart productId newQuantity = cart)
    ∧ ((∀ it ∈ cart, 1 ≤ it.quantity) →
        ∀ it ∈ updateQuantity cart productId newQuantity, 1 ≤ it.quantity)
    ∧ ((∀ it ∈ cart, 1 ≤ it.quantity) →
        ∀ it ∈ removeFromCart cart productId, 1 ≤ it.quantity)
    ∧ (∀ it ∈ clearCart, 1 ≤ it.quantity)
    ∧ ((∀ it ∈ cart, 1 ≤ it.quantity) → 1 ≤ q →
        ∀ it ∈ addToCart cart product q, 1 ≤ it.quantity)
    ∧ (cartSchemaValid items = true ↔ ∀ it ∈ items, 1 ≤ it.quantity)
    ∧ (cartSchemaValid items = true → ∀ it ∈ loadCart items, 1 ≤ it.quantity) := by
  refine ⟨?_, ?_, ?_, by simp [clearCart], ?_, ?_, ?_⟩
  · intro hlt
    simp [updateQuantity, hlt]
  · intro hc it hit
    unfold updateQuantity at hit
    split_ifs at hit with hlt
    · exact hc it hit
    · obtain ⟨x, hx, rfl⟩ := List.mem_map.mp hit
      by_cases hid : x.id = productId
      · simp only [if_pos hid]
        omega
      · simp only [if_neg hid]
        exact hc x hx
  · intro hc it hit
    exact hc it (List.mem_of_mem_filter hit)
  · exact addToCart_quantity_ge cart product q
  · simp [cartSchemaValid, cartItemValid, List.all_eq_true]
  · intro hv
    rw [loadCart]
    exact (by simpa [cartSchemaValid, cartItemValid, List.all_eq_true] using hv :
      ∀ it ∈ items, 1 ≤ it.quantity)

/-! ## C9: distinct product ids in the cart -/

/-- The ids after `addToCart`: unchanged when the product was already in the
cart, otherwise the product's id is appended. -/
theorem addToCart_ids (cart : List CartItem) (product : Product) (q : Int) :
    (addToCart cart product q).map CartItem.id =
      if cart.any (fun it => it.id = product.id) then cart.map CartItem.id
      else cart.map CartItem.id ++ [product.id] := by
  induction cart with
  | nil => simp [addToCart, itemOfProduct]
  | cons item rest ih =>
    by_cases hid : item.id = product.id
    · simp [addToCart, hid, List.any_cons]
    · simp only [addToCart, if_neg hid, List.map_cons, List.any_cons, ih]
      by_cases hmem : rest.any (fun it => it.id = product.id) = true <;>
        simp [hid, hmem]

/-- When the product's id is absent, `addToCart` appends a fresh item. -/
theorem addToCart_of_not_mem (cart : List CartItem) (product : Product) (q : Int)
    (hmem : cart.any (fun it => it.id = product.id) = false) :
    addToCart cart product q = cart ++ [itemOfProduct product q] := by
  induction cart with
  | nil => simp [addToCart]
  | cons item rest ih =>
    rw [List.any_cons] at hmem
    have h1 : ¬ item.id = product.id := by
      intro he
      simp [he] at hmem
    have h2 : rest.any (fun it => it.id = product.id) = false := by
      simpa [h1] using hmem
    simp [addToCart, h1, ih h2]

/-- When the product's id is present in a duplicate-free cart, `addToCart`
increments exactly that item's quantity and leaves every id and every other
quantity unchanged. -/
theorem addToCart_pairs (cart : List CartItem) (product : Product) (q : Int)
    (h : (cart.map CartItem.id).Nodup)
    (hmem : cart.any (fun it => it.id = product.id) = true) :
    (addToCart cart product q).map (fun it => (it.id, it.quantity)) =
      cart.map (fun it =>
        (it.id, if it.id = product.id then it.quantity + q else it.quantity)) := by
  induction cart with
  | nil => simp at hmem
  | cons item rest ih =>
    rw [List.map_cons] at h
    have hn := List.nodup_cons.mp h
    by_cases hid : item.id = product.id
    · have hrest0 : ∀ x ∈ rest, ¬ x.id = product.id := by
        intro x hx hxe
        exact hn.1 (by rw [hid, ← hxe]; exact List.mem_map_of_mem CartItem.id hx)
      simp only [addToCart, if_pos hid, List.map_cons, if_pos hid]
      congr 1
      exact List.map_congr_left fun x hx => by simp [hrest0 x hx]
    · have hmem2 : rest.any (fun it => it.id = product.id) = true := by
        simpa [List.any_cons, hid] using hmem
      simp only [addToCart, if_neg hid, List.map_cons, if_neg hid]
      exact congrArg _ (ih hn.2 hmem2)

/-- C9: a cart whose item ids are pairwise distinct stays that way: adding a
product whose id is present only increments that item's quantity (same ids,
same length), adding a fresh product appends exactly one item, and
`removeFromCart`, `updateQuantity` and `clearCart` also keep the ids
duplicate-free. -/
theorem cart_ids_distinct (cart : List CartItem) (product : Product) (q : Int)
    (productId : Nat) (newQuantity : Int)
    (h : (cart.map CartItem.id).Nodup) :
    (cart.any (fun it => it.id = product.id) = true →
      (addToCart cart product q).map (fun it => (it.id, it.quantity)) =
        cart.map (fun it =>
          (it.id, if it.id = product.id then it.quantity + q else it.quantity))
      ∧ (addToCart cart product q).length = cart.length)
    ∧ (cart.any (fun it => it.id = product.id) = false →
      addToCart cart product q = cart ++ [itemOfProduct product q])
    ∧ ((addToCart cart product q).map CartItem.id).Nodup
    ∧ ((removeFromCart cart productId).map CartItem.id).Nodup
    ∧ ((updateQuantity cart productId newQuantity).map CartItem.id).Nodup
    ∧ (clearCart.map CartItem.id).Nodup := by
  refine ⟨fun hmem => ⟨addToCart_pairs cart product q h hmem, ?_⟩,
    addToCart_of_not_mem cart product q, ?_, ?_, ?_, by simp [clearCart]⟩
  · have hlen := congrArg List.length (addToCart_pairs cart product q h hmem)
    simpa using hlen
  · rw [addToCart_ids]
    by_cases hmem : cart.any (fun it => it.id = product.id) = true
    · simpa [hmem] using h
    · have hnotin : product.id ∉ cart.map CartItem.id := by
        intro hin
        obtain ⟨x, hx, hxe⟩ := List.mem_map.mp hin
        exact hmem (List.any_eq_true.mpr ⟨x, hx, by simp [hxe]⟩)
      rw [if_neg (by simpa using hmem)]
      simp [List.nodup_append, h, hnotin]
  · unfold removeFromCart
    exact h.sublist ((List.filter_sublist cart).map CartItem.id)
  · unfold updateQuantity
    split_ifs
    · exact h
    · have hids : (cart.map (fun item =>
          if item.id = productId then { item with quantity := newQuantity }
          else item)).map CartItem.id = cart.map CartItem.id := by
        rw [List.map_map]
        apply List.map_congr_left
        intro a ha
        by_cases hid : a.id = productId <;> simp [hid]
      rw [hids]
      exact h

/-- C9 (witness): the theorem applied to the two-item example cart. -/
theorem cart_ids_distinct_witness :
    (([exI1, exI2].any (fun it => it.id = specA.id) = true →
      (addToCart [exI1, exI2] specA 1).map (fun it => (it.id, it.quantity)) =
        [exI1, exI2].map (fun it =>
          (it.id, if it.id = specA.id then it.quantity + 1 else it.quantity))
      ∧ (addToCart [exI1, exI2] specA 1).length = [exI1, exI2].length)
    ∧ ([exI1, exI2].any (fun it => it.id = specA.id) = false →
      addToCart [exI1, exI2] specA 1 = [exI1, exI2] ++ [itemOfProduct specA 1])
    ∧ ((addToCart [exI1, exI2] specA 1).map CartItem.id).Nodup
    ∧ ((removeFromCart [exI1, exI2] 2).map CartItem.id).Nodup
    ∧ ((updateQuantity [exI1, exI2] 2 3).map CartItem.id).Nodup
    ∧ (clearCart.map CartItem.id).Nodup) :=
  cart_ids_distinct [exI1, exI2] specA 1 2 3 (by decide)

/-! ## C10: saving an empty cart always fails -/

/-- C10: the POST /api/cart guard answers 400 exactly when the request's
`items` is missing, not an array, or empty (no cart is created in that case),
and the client-side `saveCart` does not call the server exactly when the local
cart is empty, returning `null` and recording the "Cannot save an empty cart"
error. -/
theorem empty_cart_save_rejected (items : ItemsField) (cart : List CartItem) :
    (postCart items = PostCartResult.badRequest ↔
      items = ItemsField.missing ∨ items = ItemsField.notArray
        ∨ items = ItemsField.arr [])
    ∧ ((saveCart cart).serverCalled = false ↔ cart = [])
    ∧ (saveCart []).rejectedReturn = none
    ∧ (saveCart []).errorMsg = some "Cannot save an empty cart" := by
  refine ⟨?_, ?_, rfl, rfl⟩
  · cases items with
    | missing => simp [postCart]
    | notArray => simp [postCart]
    | arr l =>
      by_cases hl : l.length = 0 <;>
        simp [postCart, hl, List.length_eq_zero, ← List.length_eq_zero]
  · unfold saveCart
    split_ifs with hz
    · simp [List.length_eq_zero.mp hz]
    · constructor
      · intro hcontra
        simp at hcontra
      · intro hc
        subst hc
        exact absurd rfl hz

end SuperCart
